import Mathlib

/-!
# webpp11: request parsing, dispatch and the connection cycle

A shallow embedding of `include/webpp11/server.h` and `include/webpp11/app.h`.

Conventions of the embedding:

* a `std::string` is a `String` (fields, map keys) or a `List Char` (the bytes of a
  stream buffer); every `Char` stands for one byte;
* asynchronous operations are modelled by their completion handlers: a function
  that starts `async_write` returns the handler that will run at completion, and
  the handler says whether `process(socket)` is called again;
* library functions (`std::getline`, `std::string::pop_back`, `std::regex_match`
  on the two patterns of `parse_request`, `std::stof`, `std::stoull`,
  `async_read_until`, `async_read`) are modelled by their documented behaviour;
  undefined behaviour and thrown exceptions are explicit results.
-/

namespace webpp

/-! ## Values declared in headers that are not part of the sources -/

/-- Modelled from the spec: the enumerated HTTP status of `response.h` (not in the
sources), represented by its numeric code. -/
abbrev Status := Nat

/-- Modelled from the spec: `http::NotFound`, the status of the synthesized 404
response; its declaration is in a header that is not in the sources. -/
def http.NotFound : Status := 404

/-- Modelled from the spec: a `Response` is a plain holder of a body and a status
(`response.h` is not in the sources). The constructor takes the body first, as in
`Response("", http::NotFound)`; `get_status()` is the field `status`. -/
structure Response where
  body : String
  status : Status
deriving DecidableEq, Repr

/-- Modelled from the spec: a `Request` holds the method, path and version strings,
the header map (`request.h` is not in the sources; the map is used through `count`
and `operator[]` only) and the optional body stream `content`. A default
constructed request has empty strings, an empty map and no content. -/
structure Request where
  method : String
  path : String
  http_version : String
  header : List (String × String)
  content : Option (List Char)
deriving DecidableEq, Repr

/-- The value of `Request request;`. -/
def Request.empty : Request :=
  { method := "", path := "", http_version := "", header := [], content := none }

/-- A handler, `std::function<std::shared_ptr<Response>(Request&)>`: user code
that is given the request by reference; it is taken as a function from the
request to the response it returns and the request as the call leaves it. -/
abbrev Handler := Request → Response × Request

/-! ## String-keyed maps -/

/-- `m.count(key)` of a map held as an association list with distinct keys. -/
def count {β : Type} (m : List (String × β)) (key : String) : Nat :=
  match m with
  | [] => 0
  | (k, _) :: rest => if k = key then 1 else count rest key

/-- The entry that `m[key]` refers to when the key is present. -/
def at? {β : Type} (m : List (String × β)) (key : String) : Option β :=
  match m with
  | [] => none
  | (k, v) :: rest => if k = key then some v else at? rest key

/-- `m[key] = value` on a `std::unordered_map`: the value of an existing key is
replaced, a new key gets a new entry. -/
def assign {β : Type} (m : List (String × β)) (key : String) (value : β) :
    List (String × β) :=
  match m with
  | [] => [(key, value)]
  | (k, v) :: rest =>
    if k = key then (k, value) :: rest else (k, v) :: assign rest key value

/-- The method table of one path:
`std::unordered_map<std::string, std::function<...>>`. -/
abbrev Methods := List (String × Handler)

/-- The route table, `Routes`: a `std::map` from path to method table, held in
increasing key order (the order in which `begin()..end()` visits it). -/
abbrev Routes := List (String × Methods)

/-- `routes[url][method] = func` on the ordered map: the entry of `url` is found,
or created empty at its place in key order, and the handler is stored in it. -/
def Routes.set (routes : Routes) (url : String) (method : String) (func : Handler) :
    Routes :=
  match routes with
  | [] => [(url, assign [] method func)]
  | (u, ms) :: rest =>
    if url = u then (u, assign ms method func) :: rest
    else if url < u then (url, assign [] method func) :: (u, ms) :: rest
    else (u, ms) :: Routes.set rest url method func

/-- `ApplicationBase::add_route(url, func, method)`. -/
def add_route (routes : Routes) (url : String) (func : Handler) (method : String) :
    Routes :=
  Routes.set routes url method func

/-- `ApplicationBase::add_route(url, func)`: the method defaults to `"GET"`. -/
def add_route_default (routes : Routes) (url : String) (func : Handler) : Routes :=
  add_route routes url func "GET"

/-! ## Exceptions and faults -/

/-- The exceptions thrown by `std::stof` and `std::stoull`. -/
inductive Exception
  | invalid_argument
  | out_of_range
deriving DecidableEq, Repr

/-- Ways in which a run of the translated code yields no value of its own: the
source has undefined behaviour there, or the bound on loop iterations of the
embedding was reached (`parse_request_fuel` shows that this never happens). -/
inductive Fault
  | undefined_behavior
  | fuel
deriving DecidableEq, Repr

deriving instance DecidableEq for Except

/-! ## `std::stof` and the comparison with `1.05` -/

/-- A value of type `float`: not a number, an infinity, or the finite number
`(-1)^neg * m * 2^e`. -/
inductive FloatValue
  | nan
  | inf (neg : Bool)
  | finite (neg : Bool) (m : Nat) (e : Int)
deriving DecidableEq, Repr

/-- `isspace` in the "C" locale. -/
def isspace (c : Char) : Bool :=
  c = ' ' || c = '\t' || c = '\n' || c = '\x0b' || c = '\x0c' || c = '\r'

/-- The value of a decimal digit. -/
def digitValue (c : Char) : Option Nat :=
  if '0'.toNat ≤ c.toNat ∧ c.toNat ≤ '9'.toNat then some (c.toNat - '0'.toNat) else none

/-- The value of a hexadecimal digit. -/
def hexValue (c : Char) : Option Nat :=
  if '0'.toNat ≤ c.toNat ∧ c.toNat ≤ '9'.toNat then some (c.toNat - '0'.toNat)
  else if 'a'.toNat ≤ c.toNat ∧ c.toNat ≤ 'f'.toNat then some (c.toNat - 'a'.toNat + 10)
  else if 'A'.toNat ≤ c.toNat ∧ c.toNat ≤ 'F'.toNat then some (c.toNat - 'A'.toNat + 10)
  else none

/-- Reads the longest run of digits: the number read on top of `acc`, how many
digits were read on top of `n`, and the rest of the input. -/
def readDigits (val : Char → Option Nat) (base : Nat) :
    List Char → Nat → Nat → Nat × Nat × List Char
  | [], acc, n => (acc, n, [])
  | c :: cs, acc, n =>
    match val c with
    | some d => readDigits val base cs (acc * base + d) (n + 1)
    | none => (acc, n, c :: cs)

/-- The optional exponent part: the marker, an optional sign and at least one
decimal digit; `0` when there is no such part. -/
def readExponent (marker : Char → Bool) : List Char → Int
  | [] => 0
  | c :: cs =>
    if marker c then
      let signed : Bool × List Char :=
        match cs with
        | '-' :: r => (true, r)
        | '+' :: r => (false, r)
        | r => (false, r)
      let digits := readDigits digitValue 10 signed.2 0 0
      if digits.2.1 = 0 then 0
      else if signed.1 then - (digits.1 : Int) else (digits.1 : Int)
    else 0

/-- A digit sequence with an optional radix point and at least one digit: the
digits read as one integer, the number of digits after the point, and the rest. -/
def readSignificand (val : Char → Option Nat) (base : Nat) (s : List Char) :
    Option (Nat × Nat × List Char) :=
  let int := readDigits val base s 0 0
  match int.2.2 with
  | '.' :: r =>
    let frac := readDigits val base r int.1 0
    if int.2.1 + frac.2.1 = 0 then none else some (frac.1, frac.2.1, frac.2.2)
  | r => if int.2.1 = 0 then none else some (int.1, 0, r)

/-- ASCII lower case of a letter. -/
def lowerAscii (c : Char) : Char :=
  if 'A'.toNat ≤ c.toNat ∧ c.toNat ≤ 'Z'.toNat then Char.ofNat (c.toNat + 32) else c

/-- Whether `s` starts with `word` (given in lower case), ignoring case. -/
def startsWithNoCase (word : List Char) (s : List Char) : Bool :=
  (s.take word.length).map lowerAscii == word

/-- The position of the highest set bit, by halving at most `fuel` times. -/
def log2Fuel : Nat → Nat → Nat
  | 0, _ => 0
  | fuel + 1, n => if 2 ≤ n then log2Fuel fuel (n / 2) + 1 else 0

/-- The integer part of the binary logarithm (`0` at `0`). -/
def ilog2 (n : Nat) : Nat := log2Fuel n n

/-- Rounding of `n / d` to the nearest integer, ties to the even one. -/
def roundHalfEven (n d : Nat) : Nat :=
  if 2 * (n % d) < d then n / d
  else if d < 2 * (n % d) then n / d + 1
  else if (n / d) % 2 = 0 then n / d else n / d + 1

/-- The `float` nearest to `num / den` (IEEE 754 binary32, ties to even), with the
sign `neg`, and the `ERANGE` cases of `strtof` in the GNU C library (x86), which
`std::stof` reports as `std::out_of_range`. The value lies in `[2^e, 2^(e+1))`,
the unit of the result is `2^s` and `m` is the rounded number of units.
`ERANGE` is set when the result overflows (`2^128` or more), and when the result
is inexact and tiny: the value is below `2^-126` and stays below it when rounded
to 24 bits with an unbounded exponent (a value that such rounding takes up to
`2^-126` gives `FLT_MIN` without `ERANGE`). -/
def roundFloat (neg : Bool) (num den : Nat) : Except Exception FloatValue :=
  if num = 0 then .ok (.finite neg 0 0)
  else
    let e0 : Int := (ilog2 num : Int) - (ilog2 den : Int)
    let e : Int := if den * 2 ^ e0.toNat ≤ num * 2 ^ (-e0).toNat then e0 else e0 - 1
    let s : Int := max e (-126) - 23
    let n := num * 2 ^ (-s).toNat
    let d := den * 2 ^ s.toNat
    let m := roundHalfEven n d
    let tiny : Bool :=
      decide (e < -126) && !(decide (e = -127) && roundHalfEven (num * 2 ^ 150) den == 2 ^ 24)
    if 105 ≤ s ∨ (104 ≤ s ∧ 2 ^ 24 ≤ m) then .error .out_of_range
    else if tiny = true ∧ n % d ≠ 0 then .error .out_of_range
    else .ok (.finite neg m s)

/-- `strtof` followed by the checks of `std::stof`: leading white space and an
optional sign are skipped, then `inf`/`infinity`/`nan` (any case), a hexadecimal
or a decimal floating constant is read; what follows the constant is ignored.
No constant: `std::invalid_argument`. -/
def strtof (s : List Char) : Except Exception FloatValue :=
  let s := s.dropWhile isspace
  let signed : Bool × List Char :=
    match s with
    | '-' :: r => (true, r)
    | '+' :: r => (false, r)
    | r => (false, r)
  if startsWithNoCase "inf".toList signed.2 then .ok (.inf signed.1)
  else if startsWithNoCase "nan".toList signed.2 then .ok .nan
  else
    let hex : Option (Nat × Nat × List Char) :=
      match signed.2 with
      | '0' :: x :: r => if x = 'x' ∨ x = 'X' then readSignificand hexValue 16 r else none
      | _ => none
    match hex with
    | some (m, nf, r) =>
      let x : Int := readExponent (fun c => c = 'p' || c = 'P') r - 4 * (nf : Int)
      roundFloat signed.1 (m * 2 ^ x.toNat) (2 ^ (-x).toNat)
    | none =>
      match readSignificand digitValue 10 signed.2 with
      | none => .error .invalid_argument
      | some (m, nf, r) =>
        let x : Int := readExponent (fun c => c = 'e' || c = 'E') r - (nf : Int)
        roundFloat signed.1 (m * 10 ^ x.toNat) (10 ^ (-x).toNat)

/-- `std::stof(str)`. -/
def stof (str : String) : Except Exception FloatValue := strtof str.toList

/-- The test `f > 1.05` of the write completion handlers: `f` is converted to
`double` (exactly) and compared with the `double` nearest to `1.05`, which is
`4728779608739021 / 2^52`. -/
def FloatValue.gt_1_05 : FloatValue → Bool
  | .nan => false
  | .inf neg => !neg
  | .finite true _ _ => false
  | .finite false m e =>
    decide (4728779608739021 * 2 ^ (-(e + 52)).toNat < m * 2 ^ (e + 52).toNat)

/-! ## `std::stoull` -/

/-- `std::stoull(str)` (base 10): white space and an optional sign are skipped and
the longest run of decimal digits is read. No digit: `std::invalid_argument`; a
number above `ULLONG_MAX`: `std::out_of_range`; a minus sign negates the value
modulo `2^64`. -/
def stoull (str : String) : Except Exception Nat :=
  let s := str.toList.dropWhile isspace
  let signed : Bool × List Char :=
    match s with
    | '-' :: r => (true, r)
    | '+' :: r => (false, r)
    | r => (false, r)
  let digits := readDigits digitValue 10 signed.2 0 0
  if digits.2.1 = 0 then .error .invalid_argument
  else if 2 ^ 64 ≤ digits.1 then .error .out_of_range
  else if signed.1 then .ok ((2 ^ 64 - digits.1) % 2 ^ 64) else .ok digits.1

/-! ## Streams, lines and the two regular expressions of `parse_request` -/

/-- A `std::istream` over the read buffer: the bytes not yet extracted, and
whether the stream is still `good()` (no `eofbit`, no `failbit`). -/
structure IStream where
  buf : List Char
  good : Bool
deriving DecidableEq, Repr

/-- The characters before the first `'\n'` and the characters after it, if there
is one. -/
def splitLine : List Char → Option (List Char × List Char)
  | [] => none
  | c :: cs =>
    if c = '\n' then some ([], cs)
    else
      match splitLine cs with
      | some (l, rest) => some (c :: l, rest)
      | none => none

/-- `getline(stream, line)`: on a good stream the line is replaced by the
characters up to the next `'\n'`, which is extracted and dropped; when the input
ends first, all of it is taken and the stream is no longer good. On a stream that
is not good nothing is extracted and `line` keeps its value. -/
def getline (stream : IStream) (line : List Char) : IStream × List Char :=
  if stream.good then
    match splitLine stream.buf with
    | some (l, rest) => ({ buf := rest, good := true }, l)
    | none => ({ buf := [], good := false }, stream.buf)
  else (stream, line)

/-- `line.pop_back()`: removes the last character; undefined on an empty string
(`none`). -/
def pop_back (line : List Char) : Option (List Char) :=
  match line with
  | [] => none
  | _ :: _ => some line.dropLast

/-- The characters before the first occurrence of `c`, and the characters after
it (`none` when `c` does not occur). -/
def breakAt (c : Char) : List Char → List Char × Option (List Char)
  | [] => ([], none)
  | x :: xs =>
    if x = c then ([], some xs)
    else ((x :: (breakAt c xs).1), (breakAt c xs).2)

/-- `std::regex_match(line, sub_match, e)` for
`e = "^([^ ]*) ([^ ]*) HTTP/([^ ]*)$"`, with the three sub-matches. A group
`[^ ]*` that is followed by a space ends at the first space, so the match is
unique: the line is `a ++ " " ++ b ++ " HTTP/" ++ c` with no space in `a`, `b`,
`c`. -/
def regex_match_request_line (line : List Char) :
    Option (List Char × List Char × List Char) :=
  match breakAt ' ' line with
  | (a, some r1) =>
    match breakAt ' ' r1 with
    | (b, some r2) =>
      match r2 with
      | 'H' :: 'T' :: 'T' :: 'P' :: '/' :: c => if ' ' ∈ c then none else some (a, b, c)
      | _ => none
    | (_, none) => none
  | (_, none) => none

/-- `std::regex_match(line, sub_match, e)` for `e = "^([^:]*): ?(.*)$"`, with the
two sub-matches. The first group ends at the first colon; one space after it is
skipped when there is one; `.` matches every character except the line
terminators `'\n'` and `'\r'`, so the rest of the line must be free of them. -/
def regex_match_header_line (line : List Char) : Option (List Char × List Char) :=
  match breakAt ':' line with
  | (key, some r) =>
    let value :=
      match r with
      | ' ' :: v => v
      | v => v
    if '\n' ∈ value ∨ '\r' ∈ value then none else some (key, value)
  | (_, none) => none

/-! ## `Server::parse_request` -/

/-- The `do ... while (matched)` loop of `parse_request`, run for at most `fuel`
iterations. -/
def header_loop :
    Nat → IStream → List Char → Request → Except Fault (Request × IStream)
  | 0, _, _, _ => .error .fuel
  | fuel + 1, stream, line, request =>
    match pop_back (getline stream line).2 with
    | none => .error .undefined_behavior
    | some popped =>
      match regex_match_header_line popped with
      | some (key, value) =>
        header_loop fuel (getline stream line).1 popped
          { request with header := assign request.header (String.mk key) (String.mk value) }
      | none => .ok (request, (getline stream line).1)

/-- `Server::parse_request(stream)`: the request that is returned, and the stream
as the call leaves it. Every iteration of the header loop extracts a character of
the stream or removes one of `line`, so the bound given to `header_loop` is never
reached. -/
def parse_request (stream : IStream) : Except Fault (Request × IStream) :=
  match pop_back (getline stream []).2 with
  | none => .error .undefined_behavior
  | some line =>
    match regex_match_request_line line with
    | some (method, path, version) =>
      header_loop (stream.buf.length + 1) (getline stream []).1 line
        { Request.empty with
          method := String.mk method, path := String.mk path,
          http_version := String.mk version }
    | none => .ok (Request.empty, (getline stream []).1)

/-! ## `Server::respond` -/

/-- What `respond` does that is visible outside it, in order. -/
inductive Event
  | invoke (func : Handler) (request : Request)
  | info (message : String)
  | async_write (response : Response)

/-- What a write completion handler does with the socket: it calls
`process(socket)` again, or it returns and the last reference to the socket is
dropped (the connection is closed). -/
inductive Next
  | process
  | closed
deriving DecidableEq, Repr

/-- The completion handler given to `async_write`, on both paths of `respond`:
`if (!ec && std::stof(request->http_version) > 1.05) process(socket);`. `ec` says
whether the write failed; `std::stof` is evaluated only when it did not, and an
exception it throws leaves the handler. -/
def write_handler (request : Request) (ec : Bool) : Except Exception Next :=
  if ec then .ok .closed
  else
    match stof request.http_version with
    | .error e => .error e
    | .ok f => if f.gt_1_05 then .ok .process else .ok .closed

/-- The result of `respond`: the events up to the start of the write, and the
completion handler of that write. -/
structure Responded where
  events : List Event
  on_write : Bool → Except Exception Next

/-- The loop of `respond` over `all_routes`: at the first entry whose path is the
request's and whose method table has the request's method (`count(...) > 0`, then
`operator[]`), the handler is called on `*request`, the line is logged and the
response is written; `none` when the loop ends without a `return`. The log line
and the completion handler read the request after the handler ran, so they see
the request as the handler left it. `HttpStatusMap` is the status text table of a
header that is not in the sources. -/
def respond_loop (HttpStatusMap : Status → String) (request : Request) :
    Routes → Option Responded
  | [] => none
  | res_it :: rest =>
    if res_it.1 = request.path then
      match at? res_it.2 request.method with
      | some func =>
        let response := (func request).1
        let request1 := (func request).2
        some
          { events :=
              [ .invoke func request,
                .info (request1.path ++ " " ++ request1.method ++ ": " ++
                  HttpStatusMap response.status),
                .async_write response ],
            on_write := write_handler request1 }
      | none => respond_loop HttpStatusMap request rest
    else respond_loop HttpStatusMap request rest

/-- `Server::respond(socket, request)`. -/
def respond (HttpStatusMap : Status → String) (all_routes : Routes)
    (request : Request) : Responded :=
  match respond_loop HttpStatusMap request all_routes with
  | some r => r
  | none =>
    let not_found_res : Response := { body := "", status := http.NotFound }
    { events :=
        [ .info (request.path ++ " " ++ request.method ++ ": " ++
            HttpStatusMap not_found_res.status),
          .async_write not_found_res ],
      on_write := write_handler request }

/-! ## `Server::process` -/

/-- The bytes that the peer sends on a socket, in the pieces in which the reads
receive them; after the last piece a read completes with an error. -/
abbrev Socket := List (List Char)

/-- The number of characters up to and including the first occurrence of
`delim`. -/
def find_delim (delim : List Char) : List Char → Option Nat
  | [] => if delim = [] then some 0 else none
  | c :: cs =>
    if delim.isPrefixOf (c :: cs) then some delim.length
    else (find_delim delim cs).map (· + 1)

/-- `async_read_until(socket, buffer, delim, handler)`: pieces are appended to the
buffer until it contains the delimiter; the handler gets `bytes_transferred`, the
number of bytes up to and including the delimiter. `none`: the handler gets an
error. -/
def async_read_until (delim : List Char) :
    List Char → Socket → Option (Nat × List Char × Socket)
  | buf, [] => (find_delim delim buf).map (fun n => (n, buf, []))
  | buf, chunk :: rest =>
    match find_delim delim buf with
    | some n => some (n, buf, chunk :: rest)
    | none => async_read_until delim (buf ++ chunk) rest

/-- `async_read(socket, buffer, transfer_exactly(n), handler)`: exactly `n` more
bytes are taken from the socket; `none`: the input ends first and the handler
gets an error. -/
def async_read : Nat → Socket → Option (List Char × Socket)
  | n, [] => if n = 0 then some ([], []) else none
  | n, chunk :: rest =>
    if n = 0 then some ([], chunk :: rest)
    else if n < chunk.length then some (chunk.take n, chunk.drop n :: rest)
    else (async_read (n - chunk.length) rest).map (fun r => (chunk ++ r.1, r.2))

/-- The outcome of one call of `process(socket)`. -/
inductive Cycle
  | read_error
  | fault (f : Fault)
  | throws (e : Exception)
  | responded (request : Request) (body_read : List Char) (r : Responded)
      (socket : Socket)

/-- `Server::process(socket)`: a fresh buffer is filled up to the header
terminator, the request is parsed from it, the body is read when there is a
`Content-Length` header, and `respond` is called. The result carries the request
given to `respond`, the bytes transferred by the body read, what `respond` did and
the socket as it is left. -/
def process (HttpStatusMap : Status → String) (all_routes : Routes)
    (socket : Socket) : Cycle :=
  match async_read_until "\r\n\r\n".toList [] socket with
  | none => .read_error
  | some (bytes_transferred, read_buffer, socket1) =>
    let total := read_buffer.length
    match parse_request { buf := read_buffer, good := true } with
    | .error f => .fault f
    | .ok (request, stream) =>
      let num_additional_bytes := total - bytes_transferred
      if count request.header "Content-Length" > 0 then
        match stoull ((at? request.header "Content-Length").getD "") with
        | .error e => .throws e
        | .ok n =>
          match async_read ((n + 2 ^ 64 - num_additional_bytes) % 2 ^ 64) socket1 with
          | none => .read_error
          | some (bytes, socket2) =>
            let request1 := { request with content := some (stream.buf ++ bytes) }
            .responded request1 bytes (respond HttpStatusMap all_routes request1) socket2
      else .responded request [] (respond HttpStatusMap all_routes request) socket1

/-! ## `Server::start` and `Server::accept` -/

/-- The part of the server state that `start` and `accept` act on: the route
entries collected by `start`, the sockets on which an `async_accept` is pending,
the sockets given to `process`, and the number of sockets created. -/
structure Server where
  all_routes : Routes
  accepting : List Nat
  processing : List Nat
  sockets : Nat

/-- `Server::accept()`: a new socket is created and an `async_accept` is started
on it. -/
def Server.accept (s : Server) : Server :=
  { s with accepting := s.accepting ++ [s.sockets], sockets := s.sockets + 1 }

/-- The completion handler of the `async_accept` started on `socket`; `e` says
whether the accept failed. The operation is no longer pending; the call
`accept();` at the head of the handler is commented out in the source, so the
handler only does `if (!e) process(socket);`. -/
def Server.accept_handler (s : Server) (socket : Nat) (e : Bool) : Server :=
  let s1 := { s with accepting := s.accepting.erase socket }
  if e then s1 else { s1 with processing := s1.processing ++ [socket] }

/-- `Server::start(routes)` up to the call of `io_service.run()`: the entries of
the route table are collected in order and `accept()` is called. -/
def Server.start (routes : Routes) : Server :=
  Server.accept { all_routes := routes, accepting := [], processing := [], sockets := 0 }

/-! ## Notions used to state the properties -/

/-- The bytes of a sequence of lines, each followed by CR LF. -/
def crlf_lines : List (List Char) → List Char
  | [] => []
  | l :: ls => l ++ '\r' :: '\n' :: crlf_lines ls

/-- Whether a line has the form `KEY: VALUE`, in the words of the specification:
a colon, an optional following space, and the rest of the line as value; the rest
of a line holds no line terminator (CR or LF). -/
def is_header_line (l : List Char) : Bool :=
  l.contains ':' &&
    !(((l.dropWhile (· ≠ ':')).drop 1).contains '\r' ||
      ((l.dropWhile (· ≠ ':')).drop 1).contains '\n')

/-- The first CR LF terminated line of an input: the bytes before the first
CR LF. -/
def first_crlf_line : List Char → List Char
  | [] => []
  | c :: cs =>
    if ['\r', '\n'].isPrefixOf (c :: cs) then [] else c :: first_crlf_line cs

/-- The number that a `float` stands for (`0` for the values that are not
finite). -/
def FloatValue.toRat : FloatValue → ℚ
  | .nan => 0
  | .inf _ => 0
  | .finite neg m e =>
    (if neg then -1 else 1) * ((m : ℚ) * 2 ^ e.toNat / 2 ^ (-e).toNat)

/-- The comparison `f > q` of a `float` with a number: false for a NaN, true for
the positive infinity only, and the comparison of the numbers otherwise. -/
def FloatValue.exceeds (f : FloatValue) (q : ℚ) : Prop :=
  match f with
  | .nan => False
  | .inf neg => neg = false
  | .finite _ _ _ => q < f.toRat

/-- The header that a line `KEY: VALUE` stands for, in the words of the
specification: the text before the first colon, and the rest of the line after
the colon and at most one following space. -/
def header_pair (l : List Char) : String × String :=
  (String.mk (l.takeWhile (· ≠ ':')),
   String.mk
    (match (l.dropWhile (· ≠ ':')).drop 1 with
     | ' ' :: v => v
     | v => v))

/-- The header map that a sequence of lines stands for, in the words of the
specification: the pairs of the longest prefix of lines of the form `KEY: VALUE`
are inserted in order, a later entry overwriting an earlier one with the same
key. -/
def header_of_lines (ls : List (List Char)) : List (String × String) :=
  ((ls.takeWhile is_header_line).map header_pair).foldl
    (fun m kv => assign m kv.1 kv.2) []

/-- The route table built by a sequence of calls `add_route(url, func, method)`,
in order, from the empty table. -/
def build_routes (calls : List (String × Handler × String)) : Routes :=
  calls.foldl (fun routes c => add_route routes c.1 c.2.1 c.2.2) []

/-- The handler stored for a path and a method, if any. -/
def lookup (routes : Routes) (path method : String) : Option Handler :=
  (at? routes path).bind (fun ms => at? ms method)

/-- The keys of the ordered map are strictly increasing. -/
def SortedKeys (routes : Routes) : Prop := routes.Pairwise (fun a b => a.1 < b.1)

/-- All the bytes that a socket still delivers. -/
def Socket.bytes : Socket → List Char
  | [] => []
  | chunk :: rest => chunk ++ Socket.bytes rest

/-! ## Lemmas on lines and the two patterns -/

theorem splitLine_line (l rest : List Char) (h : '\n' ∉ l) :
    splitLine (l ++ '\n' :: rest) = some (l, rest) := by
  induction l with
  | nil => simp [splitLine]
  | cons c cs ih =>
    have hc : c ≠ '\n' := fun e => h (by simp [e])
    have hcs : '\n' ∉ cs := fun e => h (by simp [e])
    simp [splitLine, hc, ih hcs]

theorem getline_crlf (l rest line : List Char) (h : '\n' ∉ l) :
    getline { buf := l ++ '\r' :: '\n' :: rest, good := true } line =
      ({ buf := rest, good := true }, l ++ ['\r']) := by
  have h1 : '\n' ∉ l ++ ['\r'] := by simp [h]
  have h2 := splitLine_line (l ++ ['\r']) rest h1
  simp only [List.append_assoc, List.singleton_append] at h2
  simp [getline, h2]

theorem pop_back_concat (l : List Char) (c : Char) : pop_back (l ++ [c]) = some l := by
  cases l with
  | nil => simp [pop_back]
  | cons x xs =>
    have h : (x :: xs ++ [c]).dropLast = x :: xs := List.dropLast_concat
    simpa [pop_back] using h

theorem breakAt_fst (c : Char) (l : List Char) :
    (breakAt c l).1 = l.takeWhile (· ≠ c) := by
  induction l with
  | nil => simp [breakAt]
  | cons x xs ih =>
    by_cases hx : x = c
    · simp [breakAt, hx]
    · simp [breakAt, hx, ih]

theorem breakAt_snd (c : Char) (l : List Char) :
    (breakAt c l).2 =
      if c ∈ l then some ((l.dropWhile (· ≠ c)).drop 1) else none := by
  induction l with
  | nil => simp [breakAt]
  | cons x xs ih =>
    by_cases hx : x = c
    · simp [breakAt, hx]
    · have hx2 : ¬ c = x := fun e => hx e.symm
      simp [breakAt, hx, hx2, ih]

theorem breakAt_append (c : Char) (a b : List Char) (h : c ∉ a) :
    breakAt c (a ++ c :: b) = (a, some b) := by
  induction a with
  | nil => simp [breakAt]
  | cons x xs ih =>
    have hx : x ≠ c := fun e => h (by simp [e])
    have hxs : c ∉ xs := fun e => h (by simp [e])
    simp [breakAt, hx, ih hxs]

theorem breakAt_some (c : Char) (l a b : List Char) (h : breakAt c l = (a, some b)) :
    l = a ++ c :: b ∧ c ∉ a := by
  induction l generalizing a with
  | nil => simp [breakAt] at h
  | cons x xs ih =>
    by_cases hx : x = c
    · simp [breakAt, hx] at h
      obtain ⟨h1, h2⟩ := h
      subst h1 h2
      simp [hx]
    · simp only [breakAt, hx, if_false, Prod.mk.injEq] at h
      obtain ⟨h1, h2⟩ := h
      have := ih (breakAt c xs).1 (by rw [← h2])
      subst h1
      refine ⟨by simp; exact this.1, ?_⟩
      simp only [List.mem_cons, not_or]
      exact ⟨fun e => hx e.symm, this.2⟩

theorem regex_match_request_line_form (m p v : List Char)
    (hm : ' ' ∉ m) (hp : ' ' ∉ p) (hv : ' ' ∉ v) :
    regex_match_request_line (m ++ ' ' :: (p ++ ' ' :: ("HTTP/".toList ++ v))) =
      some (m, p, v) := by
  simp [regex_match_request_line, breakAt_append _ _ _ hm, breakAt_append _ _ _ hp, hv]

theorem regex_match_request_line_some (line m p v : List Char)
    (h : regex_match_request_line line = some (m, p, v)) :
    line = m ++ ' ' :: (p ++ ' ' :: ("HTTP/".toList ++ v)) ∧
      ' ' ∉ m ∧ ' ' ∉ p ∧ ' ' ∉ v := by
  unfold regex_match_request_line at h
  split at h
  · rename_i a r1 h1
    split at h
    · rename_i b r2 h2
      split at h
      · rename_i c
        split at h
        · simp at h
        · rename_i hc
          simp only [Option.some.injEq, Prod.mk.injEq] at h
          obtain ⟨rfl, rfl, rfl⟩ := h
          obtain ⟨e1, n1⟩ := breakAt_some _ _ _ _ h1
          obtain ⟨e2, n2⟩ := breakAt_some _ _ _ _ h2
          subst e2
          exact ⟨e1, n1, n2, hc⟩
      · simp at h
    · simp at h
  · simp at h

theorem regex_match_header_line_pair (l k v : List Char)
    (h : regex_match_header_line l = some (k, v)) :
    header_pair l = (String.mk k, String.mk v) := by
  have h1 := breakAt_fst ':' l
  have h2 := breakAt_snd ':' l
  rcases hb : breakAt ':' l with ⟨key, _ | r⟩
  · simp [regex_match_header_line, hb] at h
  · rw [hb] at h1 h2
    simp only at h1 h2
    by_cases hc : ':' ∈ l
    · rw [if_pos hc] at h2
      simp only [Option.some.injEq] at h2
      simp only [regex_match_header_line, hb] at h
      split_ifs at h
      simp only [Option.some.injEq, Prod.mk.injEq] at h
      obtain ⟨rfl, rfl⟩ := h
      simp only [header_pair, ← h2, h1]
    · rw [if_neg hc] at h2
      simp at h2

theorem regex_match_header_line_isSome (l : List Char) :
    (regex_match_header_line l).isSome = is_header_line l := by
  have h2 := breakAt_snd ':' l
  rcases hb : breakAt ':' l with ⟨key, _ | r⟩
  · rw [hb] at h2
    have hc : ':' ∉ l := by
      intro hc
      rw [if_pos hc] at h2
      simp at h2
    simp [regex_match_header_line, hb, is_header_line, hc]
  · rw [hb] at h2
    have hc : ':' ∈ l := by
      by_contra hc
      rw [if_neg hc] at h2
      simp at h2
    rw [if_pos hc] at h2
    simp only [Option.some.injEq] at h2
    simp only [regex_match_header_line, hb, is_header_line, ← h2]
    have hcont : l.contains ':' = true := by simpa using hc
    rw [hcont]
    cases r with
    | nil => simp
    | cons c v =>
      by_cases hsp : c = ' '
      · subst hsp
        by_cases h1 : '\n' ∈ v <;> by_cases h3 : '\r' ∈ v <;> simp [h1, h3]
      · have hval : (match c :: v with
            | ' ' :: w => w
            | w => w) = c :: v := by
          split
          · rename_i w heq
            simp only [List.cons.injEq] at heq
            exact absurd heq.1 hsp
          · rfl
        simp only [hval]
        by_cases h1 : '\n' ∈ c :: v <;> by_cases h3 : '\r' ∈ c :: v <;> simp [h1, h3]

theorem regex_match_header_line_none (l : List Char)
    (h : regex_match_header_line l = none) : is_header_line l = false := by
  rw [← regex_match_header_line_isSome, h]
  rfl

theorem regex_match_header_line_some (l k v : List Char)
    (h : regex_match_header_line l = some (k, v)) : is_header_line l = true := by
  rw [← regex_match_header_line_isSome, h]
  rfl

theorem crlf_lines_length (ls : List (List Char)) : ls.length ≤ (crlf_lines ls).length := by
  induction ls with
  | nil => simp [crlf_lines]
  | cons l ls ih => simp [crlf_lines]; omega

theorem header_loop_lines (ls : List (List Char)) :
    ∀ (fuel : Nat) (tail line : List Char) (request : Request),
      (∀ l ∈ ls, '\n' ∉ l) → (∃ l ∈ ls, is_header_line l = false) →
      (ls.takeWhile is_header_line).length < fuel →
      header_loop fuel { buf := crlf_lines ls ++ tail, good := true } line request =
        .ok ({ request with
                header := ((ls.takeWhile is_header_line).map header_pair).foldl
                  (fun m kv => assign m kv.1 kv.2) request.header },
             { buf := crlf_lines ((ls.dropWhile is_header_line).drop 1) ++ tail,
               good := true }) := by
  induction ls with
  | nil => intro _ _ _ _ _ hex; simp at hex
  | cons l ls ih =>
    intro fuel tail line request hlf hex hfuel
    have hl : '\n' ∉ l := hlf l (by simp)
    have hls : ∀ x ∈ ls, '\n' ∉ x := fun x hx => hlf x (by simp [hx])
    cases fuel with
    | zero => simp at hfuel
    | succ fuel =>
      have hbuf : crlf_lines (l :: ls) ++ tail = l ++ '\r' :: '\n' :: (crlf_lines ls ++ tail) := by
        simp [crlf_lines]
      have hget := getline_crlf l (crlf_lines ls ++ tail) line hl
      rw [header_loop, hbuf, hget]
      simp only [pop_back_concat]
      rcases hm : regex_match_header_line l with _ | ⟨k, v⟩
      · have hh : is_header_line l = false := regex_match_header_line_none l hm
        simp [hh]
      · have hh : is_header_line l = true := regex_match_header_line_some l k v hm
        have hex2 : ∃ x ∈ ls, is_header_line x = false := by
          obtain ⟨x, hx, hxf⟩ := hex
          rcases List.mem_cons.1 hx with e | e
          · rw [e, hh] at hxf; cases hxf
          · exact ⟨x, e, hxf⟩
        have hfuel2 : (ls.takeWhile is_header_line).length < fuel := by
          simp [List.takeWhile, hh] at hfuel
          omega
        simp only []
        rw [ih fuel tail l _ hls hex2 hfuel2]
        simp [List.takeWhile, List.dropWhile, hh, regex_match_header_line_pair l k v hm]

theorem parse_request_valid (line : List Char) (ls : List (List Char)) (tail : List Char)
    (m p v : List Char) (hline : '\n' ∉ line)
    (hm : regex_match_request_line line = some (m, p, v))
    (hls : ∀ l ∈ ls, '\n' ∉ l) (hex : ∃ l ∈ ls, is_header_line l = false) :
    parse_request { buf := line ++ '\r' :: '\n' :: (crlf_lines ls ++ tail), good := true } =
      .ok ({ method := String.mk m, path := String.mk p, http_version := String.mk v,
             header := header_of_lines ls, content := none },
           { buf := crlf_lines ((ls.dropWhile is_header_line).drop 1) ++ tail,
             good := true }) := by
  have hfuel : (ls.takeWhile is_header_line).length <
      (line ++ '\r' :: '\n' :: (crlf_lines ls ++ tail)).length + 1 := by
    have h1 := (List.takeWhile_sublist (l := ls) is_header_line).length_le
    have h2 := crlf_lines_length ls
    simp only [List.length_append, List.length_cons]
    omega
  rw [parse_request, getline_crlf line _ [] hline]
  simp only [pop_back_concat, hm]
  rw [header_loop_lines ls _ tail line _ hls hex hfuel]
  simp [Request.empty, header_of_lines]

theorem parse_request_invalid (line rest : List Char) (hline : '\n' ∉ line)
    (hm : regex_match_request_line line = none) :
    parse_request { buf := line ++ '\r' :: '\n' :: rest, good := true } =
      .ok (Request.empty, { buf := rest, good := true }) := by
  rw [parse_request, getline_crlf line _ [] hline]
  simp only [pop_back_concat, hm]

theorem splitLine_length (buf l rest : List Char) (h : splitLine buf = some (l, rest)) :
    buf.length = l.length + 1 + rest.length := by
  induction buf generalizing l with
  | nil => simp [splitLine] at h
  | cons c cs ih =>
    by_cases hc : c = '\n'
    · simp [splitLine, hc] at h
      obtain ⟨rfl, rfl⟩ := h
      simp only [List.length_cons, List.length_nil]
      omega
    · simp only [splitLine, hc, if_false] at h
      rcases hs : splitLine cs with _ | ⟨l2, r2⟩
      · simp [hs] at h
      · simp only [hs, Option.some.injEq, Prod.mk.injEq] at h
        obtain ⟨rfl, rfl⟩ := h
        have := ih l2 hs
        simp only [List.length_cons]
        omega

theorem pop_back_length (line popped : List Char) (h : pop_back line = some popped) :
    popped.length + 1 = line.length := by
  cases line with
  | nil => simp [pop_back] at h
  | cons x xs =>
    simp only [pop_back, Option.some.injEq] at h
    subst h
    simp

theorem header_loop_fuel (fuel : Nat) :
    ∀ (stream : IStream) (line : List Char) (request : Request),
      (if stream.good then stream.buf.length else line.length) < fuel →
      header_loop fuel stream line request ≠ .error .fuel := by
  induction fuel with
  | zero => intro _ _ _ h; simp at h
  | succ fuel ih =>
    intro stream line request h
    rw [header_loop]
    rcases hp : pop_back (getline stream line).2 with _ | popped
    · simp
    · have hlen := pop_back_length _ _ hp
      simp only []
      rcases hm : regex_match_header_line popped with _ | ⟨k, v⟩
      · simp
      · simp only []
        apply ih
        unfold getline at hlen ⊢
        by_cases hg : stream.good = true
        · rw [if_pos hg] at h hlen ⊢
          rcases hs : splitLine stream.buf with _ | ⟨l, rest⟩
          · simp only [hs] at hlen ⊢
            simp only [Bool.false_eq_true, if_false]
            omega
          · simp only [hs] at hlen ⊢
            have := splitLine_length _ _ _ hs
            simp only [if_true]
            omega
        · rw [if_neg hg] at h hlen ⊢
          simp only [hg] at hlen ⊢
          simp only [Bool.false_eq_true, if_false]
          omega

theorem parse_request_fuel (stream : IStream) : parse_request stream ≠ .error .fuel := by
  rw [parse_request]
  rcases hp : pop_back (getline stream []).2 with _ | line
  · simp
  · have hlen := pop_back_length _ _ hp
    simp only []
    rcases hm : regex_match_request_line line with _ | ⟨m, p, v⟩
    · simp
    · simp only []
      apply header_loop_fuel
      unfold getline at hlen ⊢
      by_cases hg : stream.good = true
      · rw [if_pos hg] at hlen ⊢
        rcases hs : splitLine stream.buf with _ | ⟨l, rest⟩
        · simp only [hs] at hlen ⊢
          simp only [Bool.false_eq_true, if_false]
          omega
        · simp only [hs] at hlen ⊢
          have := splitLine_length _ _ _ hs
          simp only [if_true]
          omega
      · rw [if_neg hg] at hlen ⊢
        simp at hlen

theorem header_loop_fields (fuel : Nat) :
    ∀ (stream : IStream) (line : List Char) (request : Request) (r : Request × IStream),
      header_loop fuel stream line request = .ok r →
      r.1.method = request.method ∧ r.1.path = request.path ∧
        r.1.http_version = request.http_version := by
  induction fuel with
  | zero => intro _ _ _ _ h; simp [header_loop] at h
  | succ fuel ih =>
    intro stream line request r h
    rw [header_loop] at h
    rcases hp : pop_back (getline stream line).2 with _ | popped
    · simp [hp] at h
    · simp only [hp] at h
      rcases hm : regex_match_header_line popped with _ | ⟨k, v⟩
      · simp only [hm, Except.ok.injEq] at h
        rw [← h]
        exact ⟨rfl, rfl, rfl⟩
      · simp only [hm] at h
        have := ih _ _ _ r h
        exact this

theorem parse_request_fields (line rest m p v : List Char) (hline : '\n' ∉ line)
    (hm : regex_match_request_line line = some (m, p, v)) :
    parse_request { buf := line ++ '\r' :: '\n' :: rest, good := true } =
        .error .undefined_behavior ∨
      ∃ r, parse_request { buf := line ++ '\r' :: '\n' :: rest, good := true } = .ok r ∧
        r.1.method = String.mk m ∧ r.1.path = String.mk p ∧
        r.1.http_version = String.mk v := by
  rcases hr : parse_request { buf := line ++ '\r' :: '\n' :: rest, good := true } with f | r
  · cases f with
    | undefined_behavior => exact Or.inl rfl
    | fuel => exact absurd hr (parse_request_fuel _)
  · right
    refine ⟨r, rfl, ?_⟩
    rw [parse_request, getline_crlf line _ [] hline] at hr
    simp only [pop_back_concat, hm] at hr
    exact header_loop_fields _ _ _ _ r hr

/-! ## Lemmas on the route table -/

theorem at?_assign {β : Type} (m : List (String × β)) (k k2 : String) (v : β) :
    at? (assign m k v) k2 = if k = k2 then some v else at? m k2 := by
  induction m with
  | nil => simp [assign, at?]
  | cons x xs ih =>
    obtain ⟨a, b⟩ := x
    by_cases h : a = k
    · subst h
      by_cases h2 : a = k2 <;> simp [assign, at?, h2]
    · by_cases h2 : a = k2
      · subst h2
        have h3 : ¬ k = a := fun e => h e.symm
        simp [assign, at?, h, h3]
      · simp [assign, at?, h, h2, ih]

theorem at?_none_of_lt (routes : Routes) (url : String)
    (h : ∀ x ∈ routes, url < x.1) : at? routes url = none := by
  induction routes with
  | nil => simp [at?]
  | cons x xs ih =>
    obtain ⟨a, b⟩ := x
    have h1 : url < a := h (a, b) (by simp)
    have h2 : ¬ a = url := fun e => by rw [e] at h1; exact lt_irrefl _ h1
    simp only [at?, h2, if_false]
    exact ih (fun y hy => h y (by simp [hy]))

theorem mem_set (routes : Routes) (url method : String) (func : Handler)
    (x : String × Methods) (hx : x ∈ Routes.set routes url method func) :
    x.1 = url ∨ x ∈ routes := by
  induction routes with
  | nil => simp [Routes.set] at hx; simp [hx]
  | cons y ys ih =>
    obtain ⟨u, ms⟩ := y
    simp only [Routes.set] at hx
    split_ifs at hx with h1 h2
    · rcases List.mem_cons.1 hx with e | e
      · left; rw [e]; exact h1.symm
      · right; simp [e]
    · rcases List.mem_cons.1 hx with e | e
      · left; rw [e]
      · right; exact e
    · rcases List.mem_cons.1 hx with e | e
      · right; simp [e]
      · rcases ih e with e2 | e2
        · left; exact e2
        · right; simp [e2]

theorem sortedKeys_set (routes : Routes) (url method : String) (func : Handler)
    (h : SortedKeys routes) : SortedKeys (Routes.set routes url method func) := by
  induction routes with
  | nil => simp [Routes.set, SortedKeys]
  | cons y ys ih =>
    obtain ⟨u, ms⟩ := y
    unfold SortedKeys at h ih ⊢
    rw [List.pairwise_cons] at h
    simp only [Routes.set]
    split_ifs with h1 h2
    · rw [List.pairwise_cons]
      exact ⟨h.1, h.2⟩
    · rw [List.pairwise_cons]
      refine ⟨?_, List.pairwise_cons.2 h⟩
      intro b hb
      rcases List.mem_cons.1 hb with e | e
      · rw [e]; exact h2
      · exact lt_trans h2 (h.1 b e)
    · rw [List.pairwise_cons]
      refine ⟨?_, ih h.2⟩
      intro b hb
      rcases mem_set ys url method func b hb with e | e
      · rw [e]
        rcases lt_trichotomy url u with t | t | t
        · exact absurd t h2
        · exact absurd t h1
        · exact t
      · exact h.1 b e

theorem lookup_cons (u : String) (ms : Methods) (ys : Routes) (path m : String) :
    lookup ((u, ms) :: ys) path m = if u = path then at? ms m else lookup ys path m := by
  by_cases h : u = path <;> simp [lookup, at?, h]

theorem lookup_set (routes : Routes) (url method : String) (func : Handler)
    (path m : String) (h : SortedKeys routes) :
    lookup (Routes.set routes url method func) path m =
      if url = path ∧ method = m then some func else lookup routes path m := by
  induction routes with
  | nil =>
    by_cases h1 : url = path <;> by_cases h2 : method = m <;>
      simp [Routes.set, lookup, at?, assign, h1, h2]
  | cons y ys ih =>
    obtain ⟨u, ms⟩ := y
    have hs := h
    unfold SortedKeys at h ih
    rw [List.pairwise_cons] at h
    simp only [Routes.set]
    by_cases h1 : url = u
    · subst h1
      rw [if_pos rfl, lookup_cons, lookup_cons, at?_assign]
      by_cases h2 : url = path <;> by_cases h3 : method = m <;> simp [h2, h3]
    · rw [if_neg h1]
      by_cases h2 : url < u
      · rw [if_pos h2, lookup_cons]
        by_cases h3 : url = path
        · subst h3
          have hnone : at? ((u, ms) :: ys) url = none := by
            apply at?_none_of_lt
            intro x hx
            rcases List.mem_cons.1 hx with e | e
            · rw [e]; exact h2
            · exact lt_trans h2 (h.1 x e)
          have hl : lookup ((u, ms) :: ys) url m = none := by simp [lookup, hnone]
          by_cases h4 : method = m <;> simp [at?_assign, at?, h4, hl]
        · simp [h3]
      · rw [if_neg h2, lookup_cons, lookup_cons, ih h.2]
        by_cases h3 : u = path
        · have h4 : ¬ url = path := fun e => h1 (e.trans h3.symm)
          simp [h3, h4]
        · simp [h3]

theorem respond_loop_absent (HttpStatusMap : Status → String) (request : Request)
    (routes : Routes) (h : ∀ x ∈ routes, x.1 ≠ request.path) :
    (respond_loop HttpStatusMap request routes).isNone = true := by
  induction routes with
  | nil => simp [respond_loop]
  | cons y ys ih =>
    have h1 : ¬ y.1 = request.path := h y (by simp)
    simp only [respond_loop, h1, if_false]
    exact ih (fun x hx => h x (by simp [hx]))

theorem respond_loop_sorted (HttpStatusMap : Status → String) (request : Request)
    (routes : Routes) (h : SortedKeys routes) :
    respond_loop HttpStatusMap request routes =
      (lookup routes request.path request.method).map (fun func =>
        { events :=
            [ .invoke func request,
              .info ((func request).2.path ++ " " ++ (func request).2.method ++ ": " ++
                HttpStatusMap (func request).1.status),
              .async_write (func request).1 ],
          on_write := write_handler (func request).2 }) := by
  induction routes with
  | nil => simp [respond_loop, lookup, at?]
  | cons y ys ih =>
    obtain ⟨u, ms⟩ := y
    unfold SortedKeys at h ih
    rw [List.pairwise_cons] at h
    rw [respond_loop, lookup_cons]
    by_cases h1 : u = request.path
    · simp only [h1, if_true]
      rcases hm : at? ms request.method with _ | func
      · simp only [Option.map_none']
        have habs : ∀ x ∈ ys, x.1 ≠ request.path := by
          intro x hx e
          have := h.1 x hx
          rw [h1, e] at this
          exact lt_irrefl _ this
        have := respond_loop_absent HttpStatusMap request ys habs
        exact Option.isNone_iff_eq_none.1 this
      · simp
    · simp only [h1, if_false]
      exact ih h.2

theorem sortedKeys_add_route (routes : Routes) (url : String) (func : Handler)
    (method : String) (h : SortedKeys routes) :
    SortedKeys (add_route routes url func method) :=
  sortedKeys_set routes url method func h

theorem lookup_add_route (routes : Routes) (url : String) (func : Handler)
    (method path m : String) (h : SortedKeys routes) :
    lookup (add_route routes url func method) path m =
      if url = path ∧ method = m then some func else lookup routes path m :=
  lookup_set routes url method func path m h

theorem sortedKeys_foldl (calls : List (String × Handler × String)) :
    ∀ routes : Routes, SortedKeys routes →
      SortedKeys (calls.foldl (fun routes c => add_route routes c.1 c.2.1 c.2.2) routes) := by
  induction calls with
  | nil => intro routes h; exact h
  | cons c cs ih =>
    intro routes h
    exact ih _ (sortedKeys_add_route routes c.1 c.2.1 c.2.2 h)

theorem sortedKeys_build (calls : List (String × Handler × String)) :
    SortedKeys (build_routes calls) :=
  sortedKeys_foldl calls [] List.Pairwise.nil

theorem lookup_foldl_other (path method : String)
    (calls : List (String × Handler × String)) :
    ∀ routes : Routes, SortedKeys routes →
      (∀ c ∈ calls, ¬ (c.1 = path ∧ c.2.2 = method)) →
      lookup (calls.foldl (fun routes c => add_route routes c.1 c.2.1 c.2.2) routes)
        path method = lookup routes path method := by
  induction calls with
  | nil => intro routes _ _; rfl
  | cons c cs ih =>
    intro routes h hc
    have h1 : ¬ (c.1 = path ∧ c.2.2 = method) := hc c (by simp)
    simp only [List.foldl_cons]
    rw [ih _ (sortedKeys_add_route routes c.1 c.2.1 c.2.2 h)
      (fun x hx => hc x (by simp [hx]))]
    rw [lookup_add_route _ _ _ _ _ _ h, if_neg h1]

theorem lookup_build_registered (before after : List (String × Handler × String))
    (path method : String) (func : Handler)
    (hafter : ∀ c ∈ after, ¬ (c.1 = path ∧ c.2.2 = method)) :
    lookup (build_routes (before ++ (path, func, method) :: after)) path method =
      some func := by
  unfold build_routes
  rw [List.foldl_append, List.foldl_cons]
  have hs := sortedKeys_build before
  unfold build_routes at hs
  rw [lookup_foldl_other path method after _ (sortedKeys_add_route _ _ _ _ hs) hafter]
  rw [lookup_add_route _ _ _ _ _ _ hs]
  simp

theorem lookup_build_unregistered (calls : List (String × Handler × String))
    (path method : String)
    (h : ∀ c ∈ calls, ¬ (c.1 = path ∧ c.2.2 = method)) :
    lookup (build_routes calls) path method = none := by
  unfold build_routes
  rw [lookup_foldl_other path method calls [] List.Pairwise.nil h]
  simp [lookup, at?]

theorem respond_registered_eq (HttpStatusMap : Status → String)
    (before after : List (String × Handler × String)) (path method : String)
    (func : Handler) (request : Request)
    (hafter : ∀ c ∈ after, ¬ (c.1 = path ∧ c.2.2 = method))
    (hpath : request.path = path) (hmethod : request.method = method) :
    respond HttpStatusMap
        (Server.start (build_routes (before ++ (path, func, method) :: after))).all_routes
        request =
      { events :=
          [ .invoke func request,
            .info ((func request).2.path ++ " " ++ (func request).2.method ++ ": " ++
              HttpStatusMap (func request).1.status),
            .async_write (func request).1 ],
        on_write := write_handler (func request).2 } := by
  have hs := sortedKeys_build (before ++ (path, func, method) :: after)
  have hl := lookup_build_registered before after path method func hafter
  subst hpath hmethod
  simp only [Server.start, Server.accept, respond]
  rw [respond_loop_sorted HttpStatusMap request _ hs, hl]
  rfl

theorem respond_unregistered_eq (HttpStatusMap : Status → String)
    (calls : List (String × Handler × String)) (request : Request)
    (h : ∀ c ∈ calls, ¬ (c.1 = request.path ∧ c.2.2 = request.method)) :
    respond HttpStatusMap (Server.start (build_routes calls)).all_routes request =
      { events :=
          [ .info (request.path ++ " " ++ request.method ++ ": " ++ HttpStatusMap 404),
            .async_write { body := "", status := 404 } ],
        on_write := write_handler request } := by
  have hs := sortedKeys_build calls
  have hl := lookup_build_unregistered calls request.path request.method h
  simp only [Server.start, Server.accept, respond]
  rw [respond_loop_sorted HttpStatusMap request _ hs, hl]
  rfl

theorem at?_mem {β : Type} (m : List (String × β)) (key : String) (v : β)
    (h : at? m key = some v) : (key, v) ∈ m := by
  induction m with
  | nil => simp [at?] at h
  | cons kv rest ih =>
    obtain ⟨k, w⟩ := kv
    simp only [at?] at h
    by_cases hk : k = key
    · simp only [hk, if_true, Option.some.injEq] at h
      subst hk
      subst h
      exact List.mem_cons_self _ _
    · simp only [hk, if_false] at h
      exact List.mem_cons_of_mem _ (ih h)

theorem respond_loop_on_write_cases (HttpStatusMap : Status → String) (request : Request)
    (routes : Routes) :
    respond_loop HttpStatusMap request routes = none ∨
      ∃ r, respond_loop HttpStatusMap request routes = some r ∧
        ∃ res_it ∈ routes, ∃ mf ∈ res_it.2,
          r.on_write = write_handler (mf.2 request).2 := by
  induction routes with
  | nil => exact Or.inl rfl
  | cons res_it rest ih =>
    have hrest : respond_loop HttpStatusMap request rest = none ∨
        ∃ r, respond_loop HttpStatusMap request rest = some r ∧
          ∃ res_it2 ∈ res_it :: rest, ∃ mf ∈ res_it2.2,
            r.on_write = write_handler (mf.2 request).2 := by
      rcases ih with h | ⟨r, hr, e, he, mf, hmf, hw⟩
      · exact Or.inl h
      · exact Or.inr ⟨r, hr, e, List.mem_cons_of_mem _ he, mf, hmf, hw⟩
    simp only [respond_loop]
    by_cases hp : res_it.1 = request.path
    · simp only [hp, if_true]
      rcases hat : at? res_it.2 request.method with _ | func
      · exact hrest
      · exact Or.inr ⟨_, rfl, res_it, List.mem_cons_self _ _, (request.method, func),
          at?_mem _ _ _ hat, rfl⟩
    · simp only [hp, if_false]
      exact hrest

theorem respond_on_write_cases (HttpStatusMap : Status → String) (request : Request)
    (routes : Routes) :
    (respond HttpStatusMap routes request).on_write = write_handler request ∨
      ∃ res_it ∈ routes, ∃ mf ∈ res_it.2,
        (respond HttpStatusMap routes request).on_write =
          write_handler (mf.2 request).2 := by
  rcases respond_loop_on_write_cases HttpStatusMap request routes with h | ⟨r, hr, hw⟩
  · left
    simp only [respond, h]
  · right
    simp only [respond, hr]
    exact hw

/-! ## Dispatch -/

/-- C1: in a route table built by calls of `add_route`, a request whose path and
method are those of a registered triple (one that no later call overwrites) makes
`respond` call that handler once with the request, log, and write the response the
handler returned; nothing else happens: no other handler is called and no 404 is
written. The log line is built after the call, from the request as the handler
left it. -/
theorem respond_registered (HttpStatusMap : Status → String)
    (before after : List (String × Handler × String)) (path method : String)
    (func : Handler) (request : Request)
    (hafter : ∀ c ∈ after, ¬ (c.1 = path ∧ c.2.2 = method))
    (hpath : request.path = path) (hmethod : request.method = method) :
    (respond HttpStatusMap
        (Server.start (build_routes (before ++ (path, func, method) :: after))).all_routes
        request).events =
      [ .invoke func request,
        .info ((func request).2.path ++ " " ++ (func request).2.method ++ ": " ++
          HttpStatusMap (func request).1.status),
        .async_write (func request).1 ] := by
  rw [respond_registered_eq HttpStatusMap before after path method func request hafter hpath
    hmethod]

theorem respond_registered_witness :
    (∀ c ∈ [(("/hello", fun r => ({ body := "post", status := 200 }, r), "POST") :
        String × Handler × String)], ¬ (c.1 = "/hello" ∧ c.2.2 = "GET")) ∧
    (respond (fun _ => "OK")
        (Server.start (build_routes
          ([("/a", fun r => ({ body := "a", status := 200 }, r), "GET")] ++
            ("/hello", fun r => ({ body := "hi", status := 200 }, r), "GET") ::
              [("/hello", fun r => ({ body := "post", status := 200 }, r),
                "POST")]))).all_routes
        { method := "GET", path := "/hello", http_version := "1.1", header := [],
          content := none }).events =
      [ .invoke (fun r => ({ body := "hi", status := 200 }, r))
          { method := "GET", path := "/hello", http_version := "1.1", header := [],
            content := none },
        .info ("/hello" ++ " " ++ "GET" ++ ": " ++ "OK"),
        .async_write { body := "hi", status := 200 } ] :=
  ⟨by simp,
   respond_registered (fun _ => "OK") _ _ "/hello" "GET"
    (fun r => ({ body := "hi", status := 200 }, r))
    { method := "GET", path := "/hello", http_version := "1.1", header := [],
      content := none } (by simp) rfl rfl⟩

/-- C2: in a route table built by calls of `add_route`, a request whose path and
method were registered by no call makes `respond` call no handler: it logs and
writes the response with status 404 (`NotFound`) and the empty body. -/
theorem respond_unregistered (HttpStatusMap : Status → String)
    (calls : List (String × Handler × String)) (request : Request)
    (h : ∀ c ∈ calls, ¬ (c.1 = request.path ∧ c.2.2 = request.method)) :
    (respond HttpStatusMap (Server.start (build_routes calls)).all_routes request).events =
      [ .info (request.path ++ " " ++ request.method ++ ": " ++ HttpStatusMap 404),
        .async_write { body := "", status := 404 } ] := by
  rw [respond_unregistered_eq HttpStatusMap calls request h]

theorem respond_unregistered_witness :
    (∀ c ∈ [(("/hello", fun r => ({ body := "hi", status := 200 }, r), "GET") :
        String × Handler × String)], ¬ (c.1 = "/hello" ∧ c.2.2 = "POST")) ∧
    (respond (fun _ => "Not Found")
        (Server.start (build_routes
          [("/hello", fun r => ({ body := "hi", status := 200 }, r), "GET")])).all_routes
        { method := "POST", path := "/hello", http_version := "1.1", header := [],
          content := none }).events =
      [ .info ("/hello" ++ " " ++ "POST" ++ ": " ++ "Not Found"),
        .async_write { body := "", status := 404 } ] :=
  ⟨by simp,
   respond_unregistered (fun _ => "Not Found")
    [("/hello", fun r => ({ body := "hi", status := 200 }, r), "GET")]
    { method := "POST", path := "/hello", http_version := "1.1", header := [],
      content := none } (by simp)⟩

/-! ## Keep-alive -/

theorem gt_1_05_iff (f : FloatValue) :
    f.gt_1_05 = true ↔ f.exceeds (4728779608739021 / 4503599627370496) := by
  cases f with
  | nan => simp [FloatValue.gt_1_05, FloatValue.exceeds]
  | inf neg => cases neg <;> simp [FloatValue.gt_1_05, FloatValue.exceeds]
  | finite neg m e =>
    cases neg with
    | true =>
      simp only [FloatValue.gt_1_05, FloatValue.exceeds, FloatValue.toRat, if_true]
      constructor
      · intro h; cases h
      · intro h
        have h1 : (0 : ℚ) ≤ (m : ℚ) * 2 ^ e.toNat / 2 ^ (-e).toNat := by positivity
        have h2 : (0 : ℚ) < 4728779608739021 / 4503599627370496 := by norm_num
        linarith
    | false =>
      simp only [FloatValue.gt_1_05, FloatValue.exceeds, FloatValue.toRat, decide_eq_true_eq,
        Bool.false_eq_true, if_false, one_mul]
      have hpos : (0 : ℚ) < 2 ^ (-e).toNat := by positivity
      rw [lt_div_iff₀ hpos]
      have h52 : (4503599627370496 : ℚ) = 2 ^ 52 := by norm_num
      rw [h52, div_mul_eq_mul_div, div_lt_iff₀ (by positivity)]
      have hcast : (4728779608739021 * 2 ^ (-(e + 52)).toNat < m * 2 ^ (e + 52).toNat) ↔
          ((4728779608739021 : ℚ) * 2 ^ (-(e + 52)).toNat < (m : ℚ) * 2 ^ (e + 52).toNat) := by
        rw [← Nat.cast_lt (α := ℚ)]
        push_cast
        rfl
      rw [hcast]
      rcases le_or_lt 0 e with he | he
      · have e1 : (-e).toNat = 0 := by omega
        have e2 : (-(e + 52)).toNat = 0 := by omega
        have e3 : (e + 52).toNat = e.toNat + 52 := by omega
        rw [e1, e2, e3, pow_add]
        constructor <;> intro h <;> nlinarith [h]
      · rcases le_or_lt 0 (e + 52) with h5 | h5
        · have e1 : e.toNat = 0 := by omega
          have e2 : (-(e + 52)).toNat = 0 := by omega
          have e3 : (-e).toNat + (e + 52).toNat = 52 := by omega
          rw [e1, e2, ← e3, pow_add]
          have hp2 : (0 : ℚ) < 2 ^ (-e).toNat := by positivity
          constructor
          · intro h
            have := mul_lt_mul_of_pos_right h hp2
            nlinarith [this]
          · intro h
            by_contra hc
            push_neg at hc
            have := mul_le_mul_of_nonneg_right hc (le_of_lt hp2)
            nlinarith [this]
        · have e1 : e.toNat = 0 := by omega
          have e2 : (e + 52).toNat = 0 := by omega
          have e3 : (-e).toNat = (-(e + 52)).toNat + 52 := by omega
          rw [e1, e2, e3, pow_add]
          have hp2 : (0 : ℚ) < 2 ^ 52 := by positivity
          constructor
          · intro h
            have := mul_lt_mul_of_pos_right h hp2
            nlinarith [this]
          · intro h
            by_contra hc
            push_neg at hc
            have := mul_le_mul_of_nonneg_right hc (le_of_lt hp2)
            nlinarith [this]

theorem write_handler_iff (request : Request) (f : FloatValue)
    (h : stof request.http_version = .ok f) :
    (write_handler request false = .ok .process ↔
        f.exceeds (4728779608739021 / 4503599627370496)) ∧
      (write_handler request false = .ok .closed ↔
        ¬ f.exceeds (4728779608739021 / 4503599627370496)) := by
  rw [← gt_1_05_iff]
  simp only [write_handler, h, Bool.false_eq_true, if_false]
  by_cases hg : f.gt_1_05 = true
  · simp [hg]
  · simp [hg]

theorem stof_1_1 : stof "1.1" = .ok (.finite false 9227469 (-23)) := by decide

theorem stof_1_0 : stof "1.0" = .ok (.finite false 8388608 (-23)) := by decide

theorem stof_1_01 : stof "1.01" = .ok (.finite false 8472494 (-23)) := by decide

theorem stof_1_05 : stof "1.05" = .ok (.finite false 8808038 (-23)) := by decide

theorem stof_1_0500001 : stof "1.0500001" = .ok (.finite false 8808039 (-23)) := by decide

theorem stof_2_0 : stof "2.0" = .ok (.finite false 8388608 (-22)) := by decide

theorem stof_empty : stof "" = .error .invalid_argument := by decide

set_option maxRecDepth 4000 in
theorem stof_flt_min : stof "1.17549435e-38" = .ok (.finite false 8388608 (-149)) := by
  decide

theorem write_handler_1_1 (request : Request) (h : request.http_version = "1.1") :
    write_handler request false = .ok .process := by
  simp only [write_handler, h, stof_1_1, Bool.false_eq_true, if_false]
  decide

theorem write_handler_1_0 (request : Request) (h : request.http_version = "1.0") :
    write_handler request false = .ok .closed := by
  simp only [write_handler, h, stof_1_0, Bool.false_eq_true, if_false]
  decide

theorem write_handler_2_0 (request : Request) (h : request.http_version = "2.0") :
    write_handler request false = .ok .process := by
  simp only [write_handler, h, stof_2_0, Bool.false_eq_true, if_false]
  decide

theorem write_handler_1_0500001 (request : Request)
    (h : request.http_version = "1.0500001") :
    write_handler request false = .ok .process := by
  simp only [write_handler, h, stof_1_0500001, Bool.false_eq_true, if_false]
  decide

theorem write_handler_1_01 (request : Request) (h : request.http_version = "1.01") :
    write_handler request false = .ok .closed := by
  simp only [write_handler, h, stof_1_01, Bool.false_eq_true, if_false]
  decide

theorem write_handler_1_05 (request : Request) (h : request.http_version = "1.05") :
    write_handler request false = .ok .closed := by
  simp only [write_handler, h, stof_1_05, Bool.false_eq_true, if_false]
  decide

theorem write_handler_flt_min (request : Request)
    (h : request.http_version = "1.17549435e-38") :
    write_handler request false = .ok .closed := by
  simp only [write_handler, h, stof_flt_min, Bool.false_eq_true, if_false]
  decide

/-- C3, as stated, fails on the found-route path: the handler is given the request
by reference and the completion handler reads the version after the handler ran.
A request that declares `"1.1"` and whose handler stores `"1.0"` in it is closed
after the write; a request that declares `"1.0"` and whose handler stores `"1.1"`
makes the engine call `process` again. -/
theorem keep_alive_handler_rewrites_version :
    (respond (fun _ => "OK")
        (Server.start (build_routes
          [("/hello",
            fun r => ({ body := "hi", status := 200 }, { r with http_version := "1.0" }),
            "GET")])).all_routes
        { method := "GET", path := "/hello", http_version := "1.1", header := [],
          content := none }).on_write false = .ok .closed ∧
    (respond (fun _ => "OK")
        (Server.start (build_routes
          [("/hello",
            fun r => ({ body := "hi", status := 200 }, { r with http_version := "1.1" }),
            "GET")])).all_routes
        { method := "GET", path := "/hello", http_version := "1.0", header := [],
          content := none }).on_write false = .ok .process := by
  constructor
  · have h := respond_registered_eq (fun _ => "OK") [] [] "/hello" "GET"
      (fun r => ({ body := "hi", status := 200 }, { r with http_version := "1.0" }))
      { method := "GET", path := "/hello", http_version := "1.1", header := [],
        content := none } (by simp) rfl rfl
    rw [List.nil_append] at h
    rw [h]
    exact write_handler_1_0
      { method := "GET", path := "/hello", http_version := "1.0", header := [],
        content := none } rfl
  · have h := respond_registered_eq (fun _ => "OK") [] [] "/hello" "GET"
      (fun r => ({ body := "hi", status := 200 }, { r with http_version := "1.1" }))
      { method := "GET", path := "/hello", http_version := "1.0", header := [],
        content := none } (by simp) rfl rfl
    rw [List.nil_append] at h
    rw [h]
    exact write_handler_1_1
      { method := "GET", path := "/hello", http_version := "1.1", header := [],
        content := none } rfl

/-- C3, amended: after a write that completed without error, the version that the
request holds at that moment decides. On the 404 path this is the declared
version: a request that declares `"1.1"` makes the completion handler call
`process` again on the socket and a request that declares `"1.0"` does not (the
connection is closed). On the found-route path it is the version of the request
as the handler left it, so the same holds whenever the handler leaves the declared
version unchanged. -/
theorem keep_alive_law (HttpStatusMap : Status → String) :
    (∀ (calls : List (String × Handler × String)) (request : Request),
      (∀ c ∈ calls, ¬ (c.1 = request.path ∧ c.2.2 = request.method)) →
      (request.http_version = "1.1" →
        (respond HttpStatusMap (Server.start (build_routes calls)).all_routes
          request).on_write false = .ok .process) ∧
      (request.http_version = "1.0" →
        (respond HttpStatusMap (Server.start (build_routes calls)).all_routes
          request).on_write false = .ok .closed)) ∧
    (∀ (before after : List (String × Handler × String)) (path method : String)
      (func : Handler) (request : Request),
      (∀ c ∈ after, ¬ (c.1 = path ∧ c.2.2 = method)) →
      request.path = path → request.method = method →
      ((func request).2.http_version = "1.1" →
        (respond HttpStatusMap
          (Server.start (build_routes (before ++ (path, func, method) :: after))).all_routes
          request).on_write false = .ok .process) ∧
      ((func request).2.http_version = "1.0" →
        (respond HttpStatusMap
          (Server.start (build_routes (before ++ (path, func, method) :: after))).all_routes
          request).on_write false = .ok .closed) ∧
      ((func request).2.http_version = request.http_version →
        (request.http_version = "1.1" →
          (respond HttpStatusMap
            (Server.start
              (build_routes (before ++ (path, func, method) :: after))).all_routes
            request).on_write false = .ok .process) ∧
        (request.http_version = "1.0" →
          (respond HttpStatusMap
            (Server.start
              (build_routes (before ++ (path, func, method) :: after))).all_routes
            request).on_write false = .ok .closed))) := by
  constructor
  · intro calls request h
    rw [respond_unregistered_eq HttpStatusMap calls request h]
    exact ⟨fun hv => write_handler_1_1 request hv, fun hv => write_handler_1_0 request hv⟩
  · intro before after path method func request hafter hpath hmethod
    rw [respond_registered_eq HttpStatusMap before after path method func request hafter
      hpath hmethod]
    refine ⟨fun hv => write_handler_1_1 _ hv, fun hv => write_handler_1_0 _ hv, ?_⟩
    intro hsame
    exact ⟨fun hv => write_handler_1_1 _ (hsame.trans hv),
      fun hv => write_handler_1_0 _ (hsame.trans hv)⟩

theorem keep_alive_law_witness :
    (respond (fun _ => "OK")
        (Server.start (build_routes
          ([] ++ ("/hello", fun r => ({ body := "hi", status := 200 }, r), "GET") ::
            []))).all_routes
        { method := "GET", path := "/hello", http_version := "1.1", header := [],
          content := none }).on_write false = .ok .process ∧
    (respond (fun _ => "OK")
        (Server.start (build_routes
          [("/hello", fun r => ({ body := "hi", status := 200 }, r), "GET")])).all_routes
        { method := "GET", path := "/nowhere", http_version := "1.0", header := [],
          content := none }).on_write false = .ok .closed :=
  ⟨((keep_alive_law (fun _ => "OK")).2 [] [] "/hello" "GET"
      (fun r => ({ body := "hi", status := 200 }, r))
      { method := "GET", path := "/hello", http_version := "1.1", header := [],
        content := none } (by simp) rfl rfl).1 rfl,
   ((keep_alive_law (fun _ => "OK")).1
      [("/hello", fun r => ({ body := "hi", status := 200 }, r), "GET")]
      { method := "GET", path := "/nowhere", http_version := "1.0", header := [],
        content := none } (by simp)).2 rfl⟩

/-- C8, as stated, fails: versions `"1.01"` and `"1.05"` are greater than 1.0 as
decimal numbers, yet after a successful write the handler does not call `process`
again: the connection is closed. -/
theorem keep_alive_above_1_0_closed :
    (respond (fun _ => "OK") (Server.start (build_routes [])).all_routes
        { method := "GET", path := "/", http_version := "1.01", header := [],
          content := none }).on_write false = .ok .closed ∧
    (respond (fun _ => "OK") (Server.start (build_routes [])).all_routes
        { method := "GET", path := "/", http_version := "1.05", header := [],
          content := none }).on_write false = .ok .closed := by
  constructor
  · rw [respond_unregistered_eq (fun _ => "OK") [] _ (by simp)]
    exact write_handler_1_01
      { method := "GET", path := "/", http_version := "1.01", header := [],
        content := none } rfl
  · rw [respond_unregistered_eq (fun _ => "OK") [] _ (by simp)]
    exact write_handler_1_05
      { method := "GET", path := "/", http_version := "1.05", header := [],
        content := none } rfl

/-- C8, amended: the keep-alive decision compares with 1.05 the version that the
request holds when the write completes (the declared version on the 404 path, the
version as the handler left it on the found-route path), converted to `float` by
`std::stof`. When the version converts to the `float` `f`, a successful write is
followed by a new call of `process` on the socket exactly when `f`, as a number,
is greater than the `double` nearest to 1.05, which is `4728779608739021 / 2^52`,
and by closing exactly when it is not. So `"1.1"`, `"2.0"` and `"1.0500001"` keep
the connection, and `"1.0"`, `"1.01"`, `"1.05"` (whose nearest `float`,
`8808038 / 2^23`, is below 1.05) and `"1.17549435e-38"` (which converts to the
least normal `float`) close it. -/
theorem keep_alive_threshold (HttpStatusMap : Status → String) :
    (∀ (calls : List (String × Handler × String)) (request : Request),
      (∀ c ∈ calls, ¬ (c.1 = request.path ∧ c.2.2 = request.method)) →
      (respond HttpStatusMap (Server.start (build_routes calls)).all_routes
        request).on_write = write_handler request) ∧
    (∀ (before after : List (String × Handler × String)) (path method : String)
      (func : Handler) (request : Request),
      (∀ c ∈ after, ¬ (c.1 = path ∧ c.2.2 = method)) →
      request.path = path → request.method = method →
      (respond HttpStatusMap
        (Server.start (build_routes (before ++ (path, func, method) :: after))).all_routes
        request).on_write = write_handler (func request).2) ∧
    (∀ (request : Request) (f : FloatValue), stof request.http_version = .ok f →
      (write_handler request false = .ok .process ↔
        f.exceeds (4728779608739021 / 4503599627370496)) ∧
      (write_handler request false = .ok .closed ↔
        ¬ f.exceeds (4728779608739021 / 4503599627370496))) ∧
    (∀ request : Request,
      (request.http_version = "1.1" ∨ request.http_version = "2.0" ∨
          request.http_version = "1.0500001" →
        write_handler request false = .ok .process) ∧
      (request.http_version = "1.0" ∨ request.http_version = "1.01" ∨
          request.http_version = "1.05" ∨ request.http_version = "1.17549435e-38" →
        write_handler request false = .ok .closed)) ∧
    ((4728779608739020 : ℚ) / 4503599627370496 < 105 / 100 ∧
      (105 : ℚ) / 100 < 4728779608739021 / 4503599627370496 ∧
      (4728779608739021 : ℚ) / 4503599627370496 - 105 / 100 <
        105 / 100 - 4728779608739020 / 4503599627370496) := by
  refine ⟨?_, ?_, ?_, ?_, ?_⟩
  · intro calls request h
    rw [respond_unregistered_eq HttpStatusMap calls request h]
  · intro before after path method func request hafter hpath hmethod
    rw [respond_registered_eq HttpStatusMap before after path method func request hafter
      hpath hmethod]
  · intro request f hf
    exact write_handler_iff request f hf
  · intro request
    constructor
    · rintro (h | h | h)
      · exact write_handler_1_1 request h
      · exact write_handler_2_0 request h
      · exact write_handler_1_0500001 request h
    · rintro (h | h | h | h)
      · exact write_handler_1_0 request h
      · exact write_handler_1_01 request h
      · exact write_handler_1_05 request h
      · exact write_handler_flt_min request h
  · norm_num

theorem keep_alive_threshold_witness :
    stof "2.0" = .ok (.finite false 8388608 (-22)) ∧
    (write_handler
        { method := "GET", path := "/", http_version := "2.0", header := [],
          content := none } false = .ok .process ↔
      (FloatValue.finite false 8388608 (-22)).exceeds
        (4728779608739021 / 4503599627370496)) ∧
    (respond (fun _ => "OK")
        (Server.start (build_routes
          ([] ++ ("/", fun r => ({ body := "hi", status := 200 },
              { r with http_version := "2.0" }), "GET") :: []))).all_routes
        { method := "GET", path := "/", http_version := "1.0", header := [],
          content := none }).on_write =
      write_handler
        { method := "GET", path := "/", http_version := "2.0", header := [],
          content := none } :=
  ⟨by decide,
   ((keep_alive_threshold (fun _ => "OK")).2.2.1
      { method := "GET", path := "/", http_version := "2.0", header := [],
        content := none } _ (by decide)).1,
   (keep_alive_threshold (fun _ => "OK")).2.1 [] [] "/" "GET"
      (fun r => ({ body := "hi", status := 200 }, { r with http_version := "2.0" }))
      { method := "GET", path := "/", http_version := "1.0", header := [],
        content := none } (by simp) rfl rfl⟩

/-! ## Malformed input -/

theorem read_until_bad :
    async_read_until "\r\n\r\n".toList [] ["BAD\r\n\r\n".toList] =
      some (7, "BAD\r\n\r\n".toList, []) := by decide

theorem parse_request_bad :
    parse_request { buf := "BAD\r\n\r\n".toList, good := true } =
      .ok (Request.empty, { buf := "\r\n".toList, good := true }) := by decide

/-- C9 at the failing input: for every route table, the cycle on the bytes
`BAD\r\n\r\n` parses the empty request and gives it to `respond`; in every table
built by `add_route` calls that has no route for the empty path and the empty
method (the empty table among them) a 404 with empty body is written, and when
that write succeeds the completion handler evaluates `std::stof("")`, which throws
`std::invalid_argument`: the handler closes nothing, an exception leaves it. The
exception is thrown in every route table whatever, as long as no handler of the
table stores a version in the empty request. -/
theorem malformed_request_line_throws (HttpStatusMap : Status → String)
    (routes : Routes) :
    process HttpStatusMap routes ["BAD\r\n\r\n".toList] =
      .responded Request.empty [] (respond HttpStatusMap routes Request.empty) [] ∧
    (respond HttpStatusMap [] Request.empty).events =
      [ .info ("" ++ " " ++ "" ++ ": " ++ HttpStatusMap 404),
        .async_write { body := "", status := 404 } ] ∧
    ((∀ res_it ∈ routes, ∀ mf ∈ res_it.2, (mf.2 Request.empty).2.http_version = "") →
      (respond HttpStatusMap routes Request.empty).on_write false =
        .error .invalid_argument) ∧
    (∀ calls : List (String × Handler × String),
      (∀ c ∈ calls, ¬ (c.1 = "" ∧ c.2.2 = "")) →
      (respond HttpStatusMap (Server.start (build_routes calls)).all_routes
          Request.empty).events =
        [ .info ("" ++ " " ++ "" ++ ": " ++ HttpStatusMap 404),
          .async_write { body := "", status := 404 } ] ∧
      (respond HttpStatusMap (Server.start (build_routes calls)).all_routes
          Request.empty).on_write false = .error .invalid_argument) := by
  have hthrow : write_handler Request.empty false = .error .invalid_argument := by
    simp only [write_handler, Request.empty, stof_empty, Bool.false_eq_true, if_false]
  refine ⟨?_, rfl, ?_, ?_⟩
  · simp only [process, read_until_bad, parse_request_bad]
    rfl
  · intro hkeep
    rcases respond_on_write_cases HttpStatusMap Request.empty routes with
      h | ⟨res_it, hres, mf, hmf, h⟩
    · rw [h]
      exact hthrow
    · rw [h]
      simp only [write_handler, hkeep res_it hres mf hmf, stof_empty, Bool.false_eq_true,
        if_false]
  · intro calls h
    rw [respond_unregistered_eq HttpStatusMap calls Request.empty h]
    exact ⟨rfl, hthrow⟩

theorem malformed_request_line_throws_witness :
    (∀ c ∈ [(("/hello", fun r => ({ body := "hi", status := 200 }, r), "GET") :
        String × Handler × String)], ¬ (c.1 = "" ∧ c.2.2 = "")) ∧
    (respond (fun _ => "Not Found")
        (Server.start (build_routes
          [("/hello", fun r => ({ body := "hi", status := 200 }, r), "GET")])).all_routes
        Request.empty).on_write false = .error .invalid_argument ∧
    (respond (fun _ => "OK")
        [("", [("", fun r => ({ body := "hi", status := 200 }, r))])]
        Request.empty).on_write false = .error .invalid_argument :=
  ⟨by simp,
   ((malformed_request_line_throws (fun _ => "Not Found") []).2.2.2
      [("/hello", fun r => ({ body := "hi", status := 200 }, r), "GET")] (by simp)).2,
   (malformed_request_line_throws (fun _ => "OK")
      [("", [("", fun r => ({ body := "hi", status := 200 }, r))])]).2.2.1
      (by simp [Request.empty])⟩

theorem read_until_lf :
    async_read_until "\r\n\r\n".toList [] ["\n\r\n\r\n".toList] =
      some (5, "\n\r\n\r\n".toList, []) := by decide

theorem parse_request_lf :
    parse_request { buf := "\n\r\n\r\n".toList, good := true } =
      .error .undefined_behavior := by decide

/-- C10 at the failing inputs: the bytes `\n\r\n\r\n` end with the header
terminator, the first line read by `getline` is empty and `line.pop_back()` acts
on the empty string (undefined behaviour); in `GET / HTTP/1.1\nHost: x\r\n\r\n` the
request line ends with a bare LF and `pop_back` removes its last character `1`, so
the version that is parsed is `1.`; in `GET / HTTP/1.1\r\nHost: x\n\r\n\r\n` the
header line ends with a bare LF and `pop_back` removes the `x` of its value. -/
theorem pop_back_unguarded (HttpStatusMap : Status → String) (routes : Routes) :
    process HttpStatusMap routes ["\n\r\n\r\n".toList] = .fault .undefined_behavior ∧
    (parse_request { buf := "GET / HTTP/1.1\nHost: x\r\n\r\n".toList, good := true }).map
        (fun r => r.1.http_version) = .ok "1." ∧
    (parse_request { buf := "GET / HTTP/1.1\r\nHost: x\n\r\n\r\n".toList, good := true }).map
        (fun r => r.1.header) = .ok [("Host", "")] := by
  refine ⟨?_, by decide, by decide⟩
  simp only [process, read_until_lf, parse_request_lf]

/-! ## Accepting connections -/

/-- C4 at the failing input: after `start` one accept is pending, on socket 0;
once its completion handler has run, with or without error, no accept is pending
any more, so a client that connects later is never accepted. -/
theorem accept_not_resumed (routes : Routes) (e : Bool) :
    (Server.start routes).accepting = [0] ∧
    ((Server.start routes).accept_handler 0 e).accepting = [] := by
  cases e <;> simp [Server.start, Server.accept, Server.accept_handler]

/-! ## The request line and the header block -/

theorem count_space_form (m p v : List Char) (hm : ' ' ∉ m) (hp : ' ' ∉ p) (hv : ' ' ∉ v) :
    (m ++ ' ' :: (p ++ ' ' :: ("HTTP/".toList ++ v))).count ' ' = 2 := by
  have h1 : m.count ' ' = 0 := List.count_eq_zero.2 hm
  have h2 : p.count ' ' = 0 := List.count_eq_zero.2 hp
  have h3 : v.count ' ' = 0 := List.count_eq_zero.2 hv
  have h4 : "HTTP/".toList.count ' ' = 0 := by decide
  simp only [List.count_append, List.count_cons_self, h1, h2, h3, h4]

theorem first_crlf_line_eq (line rest : List Char) (hline : '\n' ∉ line) :
    first_crlf_line (line ++ '\r' :: '\n' :: rest) = line := by
  induction line with
  | nil => simp [first_crlf_line, List.isPrefixOf]
  | cons c cs ih =>
    have hcs : '\n' ∉ cs := fun e => hline (by simp [e])
    have hnp : ¬ ['\r', '\n'].isPrefixOf (c :: (cs ++ '\r' :: '\n' :: rest)) = true := by
      cases cs with
      | nil => simp [List.isPrefixOf]
      | cons x xs =>
        have hx : ¬ '\n' = x := fun e => hcs (by simp [← e])
        simp [List.isPrefixOf, hx]
    rw [List.cons_append, first_crlf_line, if_neg hnp, ih hcs]

/-- C6, as stated, fails. In the first input the first CR LF terminated line is
`GET / HTTP/1.1\nHost: x`, which has not the form `METHOD PATH HTTP/VERSION` (it
holds three spaces), yet `parse_request` returns the method `GET`, the path `/`
and the version `1.`: `getline` ends the request line at the bare LF and
`pop_back` removes the `1`. In the second input the request line has the form, but
the header block starts with an empty line and `parse_request` returns no request:
`pop_back` acts on the empty string. -/
theorem request_line_bare_lf :
    first_crlf_line "GET / HTTP/1.1\nHost: x\r\n\r\n".toList =
      "GET / HTTP/1.1\nHost: x".toList ∧
    (¬ ∃ m p v : List Char,
      "GET / HTTP/1.1\nHost: x".toList = m ++ ' ' :: (p ++ ' ' :: ("HTTP/".toList ++ v)) ∧
        ' ' ∉ m ∧ ' ' ∉ p ∧ ' ' ∉ v) ∧
    parse_request { buf := "GET / HTTP/1.1\nHost: x\r\n\r\n".toList, good := true } =
      .ok ({ method := "GET", path := "/", http_version := "1.",
             header := [("Host", "x")], content := none },
           { buf := [], good := true }) ∧
    first_crlf_line "GET / HTTP/1.1\r\n\n\r\n\r\n".toList = "GET / HTTP/1.1".toList ∧
    parse_request { buf := "GET / HTTP/1.1\r\n\n\r\n\r\n".toList, good := true } =
      .error .undefined_behavior := by
  refine ⟨by decide, ?_, by decide, by decide, by decide⟩
  rintro ⟨m, p, v, hform, hm, hp, hv⟩
  have h2 := count_space_form m p v hm hp hv
  rw [← hform] at h2
  revert h2
  decide

/-- C6, amended: the request line is the first CR LF terminated line of the input
and holds no LF. If it is `METHOD PATH HTTP/VERSION` (three tokens without spaces,
single spaces between them, the third with the prefix `HTTP/`) and the rest of the
input is a block of CR LF terminated lines without LF that contains a line which
is not a header, for instance the blank line, then `parse_request` returns a
request with that method, path and version. If the line has no such form, in
particular if it has fewer than three tokens separated by spaces, `parse_request`
returns, whatever the rest is, the request whose method, path and version are
empty and whose header map is empty. -/
theorem parse_request_request_line (line rest : List Char) (hline : '\n' ∉ line) :
    first_crlf_line (line ++ '\r' :: '\n' :: rest) = line ∧
    (∀ (m p v : List Char) (ls : List (List Char)) (tail : List Char),
      line = m ++ ' ' :: (p ++ ' ' :: ("HTTP/".toList ++ v)) →
      ' ' ∉ m → ' ' ∉ p → ' ' ∉ v →
      rest = crlf_lines ls ++ tail →
      (∀ l ∈ ls, '\n' ∉ l) → (∃ l ∈ ls, is_header_line l = false) →
      ∃ r, parse_request { buf := line ++ '\r' :: '\n' :: rest, good := true } = .ok r ∧
        r.1.method = String.mk m ∧ r.1.path = String.mk p ∧
        r.1.http_version = String.mk v) ∧
    ((¬ ∃ m p v : List Char, line = m ++ ' ' :: (p ++ ' ' :: ("HTTP/".toList ++ v)) ∧
        ' ' ∉ m ∧ ' ' ∉ p ∧ ' ' ∉ v) →
      ∃ stream, parse_request { buf := line ++ '\r' :: '\n' :: rest, good := true } =
        .ok ({ method := "", path := "", http_version := "", header := [],
               content := none }, stream)) ∧
    (line.count ' ' < 2 →
      ∃ stream, parse_request { buf := line ++ '\r' :: '\n' :: rest, good := true } =
        .ok ({ method := "", path := "", http_version := "", header := [],
               content := none }, stream)) := by
  have hinvalid : (¬ ∃ m p v : List Char,
        line = m ++ ' ' :: (p ++ ' ' :: ("HTTP/".toList ++ v)) ∧
        ' ' ∉ m ∧ ' ' ∉ p ∧ ' ' ∉ v) →
      ∃ stream, parse_request { buf := line ++ '\r' :: '\n' :: rest, good := true } =
        .ok ({ method := "", path := "", http_version := "", header := [],
               content := none }, stream) := by
    intro hno
    have hnone : regex_match_request_line line = none := by
      rcases hm : regex_match_request_line line with _ | ⟨m, p, v⟩
      · rfl
      · exact absurd ⟨m, p, v, regex_match_request_line_some line m p v hm⟩ hno
    exact ⟨_, parse_request_invalid line rest hline hnone⟩
  refine ⟨first_crlf_line_eq line rest hline, ?_, hinvalid, ?_⟩
  · intro m p v ls tail hform hm hp hv hrest hls hex
    have hmatch := regex_match_request_line_form m p v hm hp hv
    rw [← hform] at hmatch
    subst hrest
    exact ⟨_, parse_request_valid line ls tail m p v hline hmatch hls hex, rfl, rfl, rfl⟩
  · intro hcount
    apply hinvalid
    rintro ⟨m, p, v, hform, hm, hp, hv⟩
    rw [hform, count_space_form m p v hm hp hv] at hcount
    omega

theorem parse_request_request_line_witness :
    '\n' ∉ "GET /hello HTTP/1.1".toList ∧
    (∃ r, parse_request
        { buf := "GET /hello HTTP/1.1".toList ++ '\r' :: '\n' :: "Host: x\r\n\r\n".toList,
          good := true } = .ok r ∧
      r.1.method = "GET" ∧ r.1.path = "/hello" ∧ r.1.http_version = "1.1") ∧
    '\n' ∉ "GET /hello".toList ∧
    ∃ stream, parse_request
        { buf := "GET /hello".toList ++ '\r' :: '\n' :: "Host: x\r\n\r\n".toList,
          good := true } =
      .ok ({ method := "", path := "", http_version := "", header := [],
             content := none }, stream) :=
  ⟨by decide,
   (parse_request_request_line "GET /hello HTTP/1.1".toList "Host: x\r\n\r\n".toList
      (by decide)).2.1 "GET".toList "/hello".toList "1.1".toList
      ["Host: x".toList, []] [] (by decide) (by decide) (by decide) (by decide)
      (by decide) (by decide) (by decide),
   by decide,
   (parse_request_request_line "GET /hello".toList "Host: x\r\n\r\n".toList
      (by decide)).2.2.2 (by decide)⟩

theorem bytes_append (a b : Socket) :
    Socket.bytes (a ++ b) = Socket.bytes a ++ Socket.bytes b := by
  induction a with
  | nil => rfl
  | cons c cs ih => simp [Socket.bytes, ih]

theorem body_framing_example :
    ("hel".toList ++ Socket.bytes ["l".toList, "o".toList]).take 5 = "hello".toList := by
  decide

end webpp
